import Mathlib

/-!
Shallow embedding of `src/smartflow/cfd_env.py` (class `CFDEnv`): the
asynchronous vectorized-environment coordinator that exchanges state, action
and reward tensors with externally running CFD simulations through a shared
key-value tensor store.

Modelling conventions:
* numeric tensor entries are modelled over `Int` (the on-the-wire dtype cast
  `astype(self.cfd_dtype)` does not change values in the model);
* the shared tensor store is an association list threaded explicitly through
  every operation; the store content observed at each coordinator call is an
  input, because the simulation processes mutate the store between calls;
* Python exceptions are modelled by an `Except` whose error channel carries
  the coordinator state and store as they stand at the raise point, mirroring
  the fact that a raised exception leaves already-performed mutations behind;
* filesystem side effects (working directories, trajectory files) and the
  external launch runtime are not modelled beyond the per-simulation handle
  list; numpy broadcast width checks on row assignment are not re-modelled,
  only row-existence (index range) checks are.
-/

namespace SmartFlow

/-- Flat numeric array exchanged through the tensor store. -/
abbrev Tensor := List Int

/-- The shared key-value tensor store, as an association list. -/
abbrev Store := List (String × Tensor)

/-- Visibility of a key in the store (`Client.get_tensor` succeeds iff this is `some`). -/
def storeLookup : Store → String → Option Tensor
  | [], _ => none
  | (k', v) :: rest, k => if k' = k then some v else storeLookup rest k

/-- Deletion of a key from the store (`Client.delete_tensor`): every binding
of the key is removed. -/
def storeErase : Store → String → Store
  | [], _ => []
  | (k', v) :: rest, k => if k' = k then storeErase rest k else (k', v) :: storeErase rest k

/-- Write of a key into the store (`Client.put_tensor`), overwriting any previous value. -/
def storePut (st : Store) (k : String) (v : Tensor) : Store :=
  (k, v) :: storeErase st k

/-- Errors raised by the coordinator: the two `ValueError`s of the async-step
protocol, the `Warning` raised when a polled key cannot be read, a numpy
`IndexError` from out-of-range indexing, and a put on an unset (`None`) key. -/
inductive Err where
  | protocolViolation (msg : String)
  | readFailure (key : String)
  | indexError
  | invalidKey
deriving Repr, DecidableEq

/-- The configuration fields of `CFDEnv.__init__` that the step/reset logic
consumes (poll timing, dtype, trajectory paths and launcher settings are not
modelled). -/
structure Config where
  n_total_agents : Nat
  agent_state_dim : Nat
  agent_action_dim : Nat
  action_bounds : Int × Int
  steps_per_episode : Nat
  steps_per_batch : Nat
  n_cfds : Nat
  agents_per_cfd : Nat
  cfd_state_dim : Nat
  cfd_action_dim : Nat
  cfd_reward_dim : Nat
  total_iterations : Nat
deriving Repr, DecidableEq

/-- The three abstract physics strategies a concrete subclass must supply
(`_redistribute_state`, `_recalculate_reward`, `_rescale_action`); the
coordinator treats them as opaque pure functions. -/
structure Strategies where
  redistribute_state : List (List Int) → List (List Int)
  recalculate_reward : List (List Int) → List Int
  rescale_action : List (List Int) → List (List Int)

/-- The `infos[i]["episode"]` summary written on a terminal step. -/
structure EpisodeSummary where
  r : Int
  l : Nat
deriving Repr, DecidableEq

/-- One per-agent info dict; both fields are absent (`none`) outside terminal steps. -/
structure Info where
  terminal_observation : Option (List Int) := none
  episode : Option EpisodeSummary := none
deriving Repr, DecidableEq

/-- The tuple returned by `step_wait`. -/
structure StepOutput where
  observations : List (List Int)
  rewards : List Int
  dones : List Bool
  infos : List Info
deriving Repr, DecidableEq

/-- The mutable attributes of a `CFDEnv` object that the claims touch. -/
structure EnvState where
  iteration : Nat
  global_step : Nat
  cfd_episode : Nat
  episode_steps : Nat
  episode_rewards : List Int
  waiting : Bool
  cfd_states : List (List Int)
  agent_states : List (List Int)
  agent_actions : List (List Int)
  agent_rewards : List Int
  scaled_agent_actions : List (List Int)
  cfd_rewards : List (List Int)
  state_key : List (Option String)
  action_key : List (Option String)
  reward_key : List (Option String)
  models : List Bool
deriving Repr, DecidableEq

/-- Little-endian decimal digits of `n`, with explicit fuel (`fuel := n` is
always enough since a number has no more decimal digits than its value). -/
def toDigitsLE : Nat → Nat → List Nat
  | 0, _ => []
  | fuel + 1, n => if n = 0 then [] else n % 10 :: toDigitsLE fuel (n / 10)

/-- Little-endian decimal digits of `n` (empty for `0`). -/
def natDigitsLE (n : Nat) : List Nat := toDigitsLE n n

/-- Big-endian decimal digits of `n`, zero-padded on the left to width 3:
the digit sequence produced by Python's format specifier `03d`. -/
def natDigits3 (n : Nat) : List Nat :=
  List.replicate (3 - (natDigitsLE n).length) 0 ++ (natDigitsLE n).reverse

/-- The character of a decimal digit. -/
def digitChar (d : Nat) : Char := Char.ofNat (48 + d)

/-- Characters of the name `env_{idx:03d}` used for store keys and directories. -/
def envChars (idx : Nat) : List Char :=
  'e' :: 'n' :: 'v' :: '_' :: (natDigits3 idx).map digitChar

/-- Characters of the `.state` key suffix. -/
def stateSuffix : List Char := '.' :: ['s', 't', 'a', 't', 'e']

/-- Characters of the `.action` key suffix. -/
def actionSuffix : List Char := '.' :: ['a', 'c', 't', 'i', 'o', 'n']

/-- Characters of the `.reward` key suffix. -/
def rewardSuffix : List Char := '.' :: ['r', 'e', 'w', 'a', 'r', 'd']

/-- The store key `env_{idx:03d}{suffix}`. -/
def keyNameOf (idx : Nat) (suf : List Char) : String := String.mk (envChars idx ++ suf)

/-- All store keys `reset` assigns when entered with iteration counter `t`
(the key formula `env_{t * n_cfds + i:03d}.state/.action/.reward`). -/
def assignedKeys (c : Config) (t : Nat) : List String :=
  (List.range c.n_cfds).map (fun i => keyNameOf (t * c.n_cfds + i) stateSuffix) ++
  (List.range c.n_cfds).map (fun i => keyNameOf (t * c.n_cfds + i) actionSuffix) ++
  (List.range c.n_cfds).map (fun i => keyNameOf (t * c.n_cfds + i) rewardSuffix)

/-- Effectful `for`-loop over a list in the `Option` monad, used to model the
numpy gather loops: any out-of-range access makes the whole loop fail. -/
def optionMapM (f : α → Option β) : List α → Option (List β)
  | [] => some []
  | a :: l => (f a).bind fun b => (optionMapM f l).map (b :: ·)

/-- The loop `for i in range(n): out[i] = rows[i]` over a matrix: fails
(numpy `IndexError`) when `rows` has fewer than `n` rows. -/
def gatherRows (n : Nat) (rows : List (List Int)) : Option (List (List Int)) :=
  optionMapM (fun i => rows.get? i) (List.range n)

/-- The loop `for i in range(n): out[i] = xs[i]` over a vector. -/
def gatherVals (n : Nat) (xs : List Int) : Option (List Int) :=
  optionMapM (fun i => xs.get? i) (List.range n)

/-- Sequential poll/get/delete of one tensor per key, the common body of
`_get_state` and `_get_reward`: per simulation, poll the key, read it, and
delete it immediately on success before touching the next simulation's key.
A key that is still absent after polling (or still `None` because `reset`
never ran) raises, and the raise leaves the deletions already performed. -/
def getTensors : List (Option String) → Store → Except (Err × Store) (List Tensor × Store)
  | [], st => .ok ([], st)
  | none :: _, st => .error (.readFailure "None", st)
  | some k :: rest, st =>
    match storeLookup st k with
    | none => .error (.readFailure k, st)
    | some v =>
      match getTensors rest (storeErase st k) with
      | .error e => .error e
      | .ok (vs, st') => .ok (v :: vs, st')

/-- `_get_state`: retrieve and consume every simulation's state tensor. -/
def get_state (s : EnvState) (store : Store) : Except (Err × Store) (List Tensor × Store) :=
  getTensors s.state_key store

/-- `_get_reward`: retrieve and consume every simulation's reward tensor. -/
def get_reward (s : EnvState) (store : Store) : Except (Err × Store) (List Tensor × Store) :=
  getTensors s.reward_key store

/-- Row `i` of the simulation-level action buffer built by `_set_action`:
entry `j * cfd_action_dim + k` is `scaled_actions[(i * agents_per_cfd + j) * cfd_action_dim, k]`,
exactly as in the source (note the multiplication by `cfd_action_dim` inside
the row index); `none` models the numpy `IndexError` when that row index or
component is out of range. -/
def setActionRow (c : Config) (sa : List (List Int)) (i : Nat) : Option (List Int) :=
  (optionMapM (fun j =>
      optionMapM (fun k =>
          (sa.get? ((i * c.agents_per_cfd + j) * c.cfd_action_dim)).bind
            (fun row => row.get? k))
        (List.range c.cfd_action_dim))
    (List.range c.agents_per_cfd)).map List.flatten

/-- `_set_action`: for each simulation ordinal in the given list, build its
flattened action row and put it at the simulation's action key; a failure
leaves the puts already performed for earlier simulations. -/
def set_action (c : Config) (keys : List (Option String)) (sa : List (List Int)) :
    List Nat → Store → Except (Err × Store) Store
  | [], st => .ok st
  | i :: rest, st =>
    match setActionRow c sa i with
    | none => .error (.indexError, st)
    | some row =>
      match keys.get? i with
      | some (some k) => set_action c keys sa rest (storePut st k row)
      | _ => .error (.invalidKey, st)

/-- `CFDEnv.__init__`: the constructor records configuration and zero-state.
It performs no configuration validation of its own (there is no
`n_total_agents == n_cfds * agents_per_cfd` check in the source), so it
always produces a state. -/
def init (c : Config) : EnvState where
  iteration := 0
  global_step := 0
  cfd_episode := 0
  episode_steps := 0
  episode_rewards := []
  waiting := false
  cfd_states := List.replicate c.n_cfds (List.replicate (c.agents_per_cfd * c.cfd_state_dim) 0)
  agent_states := List.replicate c.n_total_agents (List.replicate c.agent_state_dim 0)
  agent_actions := List.replicate c.n_total_agents (List.replicate c.agent_action_dim 0)
  agent_rewards := List.replicate c.n_total_agents 0
  scaled_agent_actions := List.replicate c.n_total_agents (List.replicate c.agent_action_dim 0)
  cfd_rewards := List.replicate c.n_cfds (List.replicate (c.agents_per_cfd * c.cfd_reward_dim) 0)
  state_key := List.replicate c.n_cfds none
  action_key := List.replicate c.n_cfds none
  reward_key := List.replicate c.n_cfds none
  models := List.replicate c.n_cfds false

/-- `reset`: recompute the store keys from the current iteration counter and
each simulation ordinal, clear the episode counters, advance the global
counters, increment the iteration counter, stop and relaunch the simulation
fleet, and perform one blocking state retrieval at the new keys to seed the
first observation. The pending-step flag `_waiting` is not touched. -/
def reset (c : Config) (strat : Strategies) (s : EnvState) (store : Store) :
    Except (Err × EnvState × Store) (List (List Int) × EnvState × Store) :=
  let s₁ : EnvState :=
    { s with
      state_key := (List.range c.n_cfds).map
        (fun i => some (keyNameOf (s.iteration * c.n_cfds + i) stateSuffix))
      action_key := (List.range c.n_cfds).map
        (fun i => some (keyNameOf (s.iteration * c.n_cfds + i) actionSuffix))
      reward_key := (List.range c.n_cfds).map
        (fun i => some (keyNameOf (s.iteration * c.n_cfds + i) rewardSuffix))
      episode_steps := 0
      episode_rewards := List.replicate c.n_total_agents 0
      global_step := s.global_step + c.steps_per_batch
      cfd_episode := s.cfd_episode + c.n_cfds
      iteration := s.iteration + 1
      models := List.replicate c.n_cfds true }
  match get_state s₁ store with
  | .error (e, st) => .error (e, s₁, st)
  | .ok (cfdS, st₁) =>
    let s₂ := { s₁ with cfd_states := cfdS, agent_states := strat.redistribute_state cfdS }
    match gatherRows c.n_total_agents s₂.agent_states with
    | none => .error (.indexError, s₂, st₁)
    | some observations => .ok (observations, s₂, st₁)

/-- `step_async`: raise if a step is already pending, otherwise record the raw
actions, set the pending-step flag, rescale, and scatter the scaled actions
into each simulation's action key. Returns without blocking. -/
def step_async (c : Config) (strat : Strategies) (s : EnvState)
    (actions : List (List Int)) (store : Store) :
    Except (Err × EnvState × Store) (EnvState × Store) :=
  if s.waiting = true then
    .error (.protocolViolation "Async step already in progress", s, store)
  else
    let s₁ : EnvState :=
      { s with
        agent_actions := actions
        waiting := true
        scaled_agent_actions := strat.rescale_action actions }
    match set_action c s₁.action_key s₁.scaled_agent_actions (List.range c.n_cfds) store with
    | .error (e, st) => .error (e, s₁, st)
    | .ok st => .ok (s₁, st)

/-- `close`: stop all simulations. -/
def close (c : Config) (s : EnvState) : EnvState :=
  { s with models := List.replicate c.n_cfds false }

/-- `step_wait`: raise if no step is pending, retrieve and gather state and
reward, advance the episode counters, report all-done exactly when the step
counter has reached the horizon, clear the pending-step flag, and on a
terminal batch capture the per-agent terminal observation and episode summary
and then either close (iteration budget exhausted) or reset and substitute the
fresh observations for the just-computed ones. -/
def step_wait (c : Config) (strat : Strategies) (s : EnvState) (store : Store) :
    Except (Err × EnvState × Store) (StepOutput × EnvState × Store) :=
  if s.waiting = true then
    match get_state s store with
    | .error (e, st) => .error (e, s, st)
    | .ok (cfdS, st₁) =>
      let s₁ := { s with cfd_states := cfdS, agent_states := strat.redistribute_state cfdS }
      match get_reward s₁ st₁ with
      | .error (e, st) => .error (e, s₁, st)
      | .ok (cfdR, st₂) =>
        let s₂ := { s₁ with cfd_rewards := cfdR, agent_rewards := strat.recalculate_reward cfdR }
        match gatherRows c.n_total_agents s₂.agent_states with
        | none => .error (.indexError, s₂, st₂)
        | some observations =>
          match gatherVals c.n_total_agents s₂.agent_rewards with
          | none => .error (.indexError, s₂, st₂)
          | some rewards =>
            let s₃ := { s₂ with
              episode_steps := s₂.episode_steps + 1
              episode_rewards := s₂.episode_rewards.zipWith (· + ·) rewards }
            let dones := List.replicate c.n_total_agents
              (decide (c.steps_per_episode ≤ s₃.episode_steps))
            let s₄ := { s₃ with waiting := false }
            if dones.all (fun b => b) then
              match optionMapM (fun i =>
                  (observations.get? i).bind fun o =>
                    (s₄.episode_rewards.get? i).map fun r =>
                      ({ terminal_observation := some o,
                         episode := some ⟨r, s₄.episode_steps⟩ } : Info))
                (List.range c.n_total_agents) with
              | none => .error (.indexError, s₄, st₂)
              | some infos =>
                if c.total_iterations ≤ s₄.iteration then
                  .ok ({ observations := observations, rewards := rewards,
                         dones := dones, infos := infos }, close c s₄, st₂)
                else
                  match reset c strat s₄ st₂ with
                  | .error e => .error e
                  | .ok (observations', s₅, st₃) =>
                    .ok ({ observations := observations', rewards := rewards,
                           dones := dones, infos := infos }, s₅, st₃)
            else
              .ok ({ observations := observations, rewards := rewards, dones := dones,
                     infos := List.replicate c.n_total_agents ({} : Info) }, s₄, st₂)
  else
    .error (.protocolViolation "No async step in progress", s, store)

/-- External inputs of one learner step: the actions passed to `step_async`
and the store contents observed at the `step_async` and `step_wait` calls
(the simulation processes mutate the shared store between the two calls,
consuming the action keys and depositing state and reward). -/
structure StepInput where
  actions : List (List Int)
  storeA : Store
  storeW : Store
deriving Repr

/-- One complete learner step: `step_async` immediately followed by `step_wait`. -/
def stepOnce (c : Config) (strat : Strategies) (s : EnvState) (inp : StepInput) :
    Except (Err × EnvState × Store) (StepOutput × EnvState × Store) :=
  match step_async c strat s inp.actions inp.storeA with
  | .error e => .error e
  | .ok (s₁, _) => step_wait c strat s₁ inp.storeW

/-- A sequence of complete learner steps, collecting each `step_wait` return. -/
def runSteps (c : Config) (strat : Strategies) :
    EnvState → List StepInput → Except (Err × EnvState × Store) (EnvState × List StepOutput)
  | s, [] => .ok (s, [])
  | s, inp :: rest =>
    match stepOnce c strat s inp with
    | .error e => .error e
    | .ok (out, s', _) =>
      match runSteps c strat s' rest with
      | .error e => .error e
      | .ok (sf, outs) => .ok (sf, out :: outs)

/-- `get_attr`: one value of the single shared coordinator attribute per
requested index (`[getattr(self, attr_name) for _ in indices]`). -/
def get_attr {V : Type} (attrs : String → V) (attr_name : String) (indices : List Nat) :
    List V :=
  indices.map (fun _ => attrs attr_name)

/-- `set_attr`: assign the value to the one shared coordinator attribute once
per requested index (`for _ in indices: setattr(self, attr_name, value)`). -/
def set_attr {V : Type} (attrs : String → V) (attr_name : String) (value : V)
    (indices : List Nat) : String → V :=
  indices.foldl (fun a _ => Function.update a attr_name value) attrs

/-! Concrete fixtures used to instantiate the theorems below. `stratFlat` is
one particular choice of the three physics strategies, with each simulation
row flattened one scalar per agent. -/

/-- A concrete strategy triple for one-dimensional agents. -/
def stratFlat : Strategies where
  redistribute_state := fun rows => rows.flatten.map (fun v => [v])
  recalculate_reward := fun rows => rows.flatten
  rescale_action := fun a => a

/-- A minimal valid configuration: one simulation, one agent, all dims 1,
one step per episode, two iterations. -/
def cTiny : Config where
  n_total_agents := 1
  agent_state_dim := 1
  agent_action_dim := 1
  action_bounds := (-1, 1)
  steps_per_episode := 1
  steps_per_batch := 1
  n_cfds := 1
  agents_per_cfd := 1
  cfd_state_dim := 1
  cfd_action_dim := 1
  cfd_reward_dim := 1
  total_iterations := 2

/-- A configuration with two action components per agent
(`cfd_action_dim = 2`), satisfying `n_total_agents = n_cfds * agents_per_cfd`. -/
def cC1 : Config :=
  { cTiny with
    n_total_agents := 2
    agent_action_dim := 2
    agents_per_cfd := 2
    cfd_action_dim := 2 }

/-- A post-reset-like state for `cC1` with its action key assigned. -/
def sC1 : EnvState :=
  { init cC1 with action_key := [some "env_000.action"] }

/-- The state reached by `step_async` on `sC1` (extracted from either channel). -/
def c1s : EnvState :=
  match step_async cC1 stratFlat sC1 [[1, 2], [3, 4]] [] with
  | .error (_, s', _) => s'
  | .ok (s', _) => s'

/-- A fresh post-reset state for `cTiny` whose iteration budget is already
exhausted (so a terminal step closes rather than resetting). -/
def sC3 : EnvState :=
  { init cTiny with
    iteration := 5
    episode_rewards := [0]
    state_key := [some "s"]
    action_key := [some "a"]
    reward_key := [some "r"] }

/-- One learner step for `sC3`: zero action, and a store in which the
simulation has deposited state `[5]` and reward `[7]` by `step_wait` time. -/
def inpC3 : StepInput where
  actions := [[0]]
  storeA := []
  storeW := [("s", [5]), ("r", [7])]

/-- The one-step run used by the fixed-horizon witness. -/
def c3res : Except (Err × EnvState × Store) (EnvState × List StepOutput) :=
  runSteps cTiny stratFlat sC3 [inpC3]

/-- Final state of the `c3res` run. -/
def c3fin : EnvState :=
  match c3res with
  | .ok (sf, _) => sf
  | .error _ => init cTiny

/-- Outputs of the `c3res` run. -/
def c3outs : List StepOutput :=
  match c3res with
  | .ok (_, outs) => outs
  | .error _ => []

/-- A mid-episode state for `cTiny`: one step pending, iteration 1 of 2,
keys of iteration 0 assigned. -/
def sC4 : EnvState :=
  { init cTiny with
    iteration := 1
    waiting := true
    episode_rewards := [0]
    state_key := [some "env_000.state"]
    action_key := [some "env_000.action"]
    reward_key := [some "env_000.reward"] }

/-- Store at the terminal `step_wait` of `sC4`: this episode's state and
reward plus the next iteration's seed state. -/
def storeC4 : Store :=
  [("env_000.state", [5]), ("env_000.reward", [7]), ("env_001.state", [9])]

/-- The coordinator state after the terminal `step_wait` on `sC4` (extracted). -/
def c4s2 : EnvState :=
  match step_wait cTiny stratFlat sC4 storeC4 with
  | .ok (_, s', _) => s'
  | .error _ => init cTiny

/-- The reset-while-pending run: a pending step, then `reset`. -/
def c5res : Except (Err × EnvState × Store) (List (List Int) × EnvState × Store) :=
  reset cTiny stratFlat { init cTiny with waiting := true } [("env_000.state", [5])]

/-- Coordinator state returned by `c5res` (extracted). -/
def c5s : EnvState :=
  match c5res with
  | .ok (_, s', _) => s'
  | .error _ => init cTiny

/-- The first-reset run on a fresh `cTiny` coordinator. -/
def c6res : Except (Err × EnvState × Store) (List (List Int) × EnvState × Store) :=
  reset cTiny stratFlat (init cTiny) [("env_000.state", [5])]

/-- Coordinator state returned by `c6res` (extracted). -/
def c6s : EnvState :=
  match c6res with
  | .ok (_, s', _) => s'
  | .error _ => init cTiny

/-- A state with two simulations' state keys and one reward key assigned. -/
def sC7 : EnvState :=
  { init cTiny with
    state_key := [some "a", some "b"]
    reward_key := [some "c"] }

/-- Store holding tensors for all of `sC7`'s keys. -/
def storeC7 : Store := [("a", [1]), ("b", [2]), ("c", [3])]

/-- An invalid configuration: `n_total_agents = 3` but
`n_cfds * agents_per_cfd = 4`. -/
def cBad : Config :=
  { cTiny with
    n_total_agents := 3
    n_cfds := 2
    agents_per_cfd := 2
    steps_per_episode := 5
    steps_per_batch := 5 }

/-- Store seeding both simulations' state keys for `cBad`'s first reset. -/
def storeBad : Store := [("env_000.state", [0, 0]), ("env_001.state", [0, 0])]

/-- The first-reset run of the invalid configuration `cBad`. -/
def c8res : Except (Err × EnvState × Store) (List (List Int) × EnvState × Store) :=
  reset cBad stratFlat (init cBad) storeBad

/-- Coordinator state returned by `c8res` (extracted). -/
def c8s1 : EnvState :=
  match c8res with
  | .ok (_, s', _) => s'
  | .error _ => init cBad

/-- A pending-step state whose single state key is absent from the store. -/
def sC9 : EnvState :=
  { init cTiny with
    waiting := true
    state_key := [some "missing"] }

/-! Helper lemmas. -/

theorem optionMapM_spec {α β : Type} (f : α → Option β) :
    ∀ (l : List α) (ys : List β), optionMapM f l = some ys →
      ys.length = l.length ∧ ∀ j, ys.get? j = (l.get? j).bind f := by
  intro l
  induction l with
  | nil =>
    intro ys h
    simp only [optionMapM, Option.some.injEq] at h
    subst h
    refine ⟨rfl, fun j => ?_⟩
    cases j <;> rfl
  | cons a l ih =>
    intro ys h
    simp only [optionMapM] at h
    cases hfa : f a with
    | none => rw [hfa] at h; simp at h
    | some b =>
      rw [hfa] at h
      cases hrec : optionMapM f l with
      | none => rw [hrec] at h; simp at h
      | some zs =>
        rw [hrec] at h
        simp at h
        subst h
        obtain ⟨ih1, ih2⟩ := ih zs hrec
        refine ⟨by simp [ih1], fun j => ?_⟩
        cases j with
        | zero => simp [hfa]
        | succ j => simpa using ih2 j

theorem optionMapM_eq_map {α β : Type} (f : α → Option β) (g : α → β) :
    ∀ (l : List α), (∀ a ∈ l, f a = some (g a)) → optionMapM f l = some (l.map g) := by
  intro l
  induction l with
  | nil => intro _; rfl
  | cons a l ih =>
    intro h
    simp [optionMapM, h a (List.mem_cons_self a l),
      ih (fun x hx => h x (List.mem_cons_of_mem a hx))]

theorem storeLookup_erase_self (st : Store) (k : String) :
    storeLookup (storeErase st k) k = none := by
  induction st with
  | nil => rfl
  | cons p rest ih =>
    obtain ⟨k', v⟩ := p
    by_cases h : k' = k
    · simp [storeErase, h, ih]
    · simp [storeErase, storeLookup, h, ih]

theorem storeLookup_erase_none (st : Store) (k k' : String)
    (h : storeLookup st k = none) : storeLookup (storeErase st k') k = none := by
  induction st with
  | nil => rfl
  | cons p rest ih =>
    obtain ⟨a, v⟩ := p
    by_cases ha : a = k
    · simp [storeLookup, ha] at h
    · simp only [storeLookup, if_neg ha] at h
      by_cases ha' : a = k'
      · simp [storeErase, ha', ih h]
      · simp [storeErase, storeLookup, ha, ha', ih h]

theorem getTensors_ok_consumed :
    ∀ (keys : List (Option String)) (store : Store) (vals : List Tensor) (store' : Store),
      getTensors keys store = .ok (vals, store') →
      (∀ k, storeLookup store k = none → storeLookup store' k = none) ∧
      (∀ k, some k ∈ keys → storeLookup store' k = none) := by
  intro keys
  induction keys with
  | nil =>
    intro store vals store' h
    simp only [getTensors, Except.ok.injEq, Prod.mk.injEq] at h
    obtain ⟨-, h2⟩ := h
    subst h2
    exact ⟨fun _ hk => hk, by simp⟩
  | cons okey rest ih =>
    intro store vals store' h
    cases okey with
    | none => simp [getTensors] at h
    | some k =>
      unfold getTensors at h
      cases hl : storeLookup store k with
      | none => rw [hl] at h; simp at h
      | some v =>
        rw [hl] at h
        cases hrec : getTensors rest (storeErase store k) with
        | error e => rw [hrec] at h; simp at h
        | ok p =>
          obtain ⟨vs, st'⟩ := p
          rw [hrec] at h
          simp only [Except.ok.injEq, Prod.mk.injEq] at h
          obtain ⟨-, h2⟩ := h
          subst h2
          obtain ⟨mono, consumed⟩ := ih _ _ _ hrec
          refine ⟨fun k2 hk2 => mono k2 (storeLookup_erase_none store k2 k hk2), ?_⟩
          intro k2 hk2
          rcases List.mem_cons.mp hk2 with hk2 | hk2

          · obtain rfl := Option.some.inj hk2
            exact mono k2 (storeLookup_erase_self store k2)
          · exact consumed k2 hk2

theorem getTensors_again_fails (keys : List (Option String)) (store' : Store)
    (h : ∀ k, some k ∈ keys → storeLookup store' k = none) (hne : keys ≠ []) :
    ∃ e, getTensors keys store' = .error (e, store') := by
  cases keys with
  | nil => exact absurd rfl hne
  | cons okey rest =>
    cases okey with
    | none => exact ⟨.readFailure "None", rfl⟩
    | some k =>
      refine ⟨.readFailure k, ?_⟩
      unfold getTensors
      rw [h k (List.mem_cons_self _ _)]

theorem all_replicate_true (n : Nat) :
    (List.replicate n true).all (fun b => b) = true := by
  induction n with
  | zero => rfl
  | succ n ih => simp [List.replicate_succ, List.all_cons, ih]

theorem all_replicate_false (n : Nat) (h : 0 < n) :
    (List.replicate n false).all (fun b => b) = false := by
  cases n with
  | zero => exact absurd h (by simp)
  | succ n => simp [List.replicate_succ, List.all_cons]

theorem foldl_update_apply {V : Type} (name : String) (v : V) :
    ∀ (l : List Nat) (a : String → V), a name = v →
      (l.foldl (fun b _ => Function.update b name v) a) name = v := by
  intro l
  induction l with
  | nil => intro a ha; exact ha
  | cons x xs ih =>
    intro a ha
    exact ih _ (Function.update_same name v a)

theorem ofDigits_replicate_zero (b k : Nat) :
    Nat.ofDigits b (List.replicate k 0) = 0 := by
  induction k with
  | zero => rfl
  | succ k ih => simp [List.replicate_succ, Nat.ofDigits_cons, ih]

theorem ofDigits_toDigitsLE :
    ∀ (fuel n : Nat), n ≤ fuel → Nat.ofDigits 10 (toDigitsLE fuel n) = n := by
  intro fuel
  induction fuel with
  | zero =>
    intro n h
    have : n = 0 := Nat.le_zero.mp h
    subst this
    rfl
  | succ fuel ih =>
    intro n h
    by_cases hn : n = 0
    · subst hn; rfl
    · have hdiv : n / 10 ≤ fuel := by
        have := Nat.div_lt_self (Nat.pos_of_ne_zero hn) (by norm_num : 1 < 10)
        omega
      simp only [toDigitsLE, if_neg hn, Nat.ofDigits_cons, ih (n / 10) hdiv]
      exact_mod_cast Nat.mod_add_div n 10

theorem toDigitsLE_lt10 :
    ∀ (fuel n d : Nat), d ∈ toDigitsLE fuel n → d < 10 := by
  intro fuel
  induction fuel with
  | zero => intro n d h; simp [toDigitsLE] at h
  | succ fuel ih =>
    intro n d h
    by_cases hn : n = 0
    · simp [toDigitsLE, hn] at h
    · simp only [toDigitsLE, if_neg hn, List.mem_cons] at h
      rcases h with h | h
      · subst h; exact Nat.mod_lt _ (by norm_num)
      · exact ih _ _ h

theorem ofDigits_reverse_natDigits3 (n : Nat) :
    Nat.ofDigits 10 (natDigits3 n).reverse = n := by
  unfold natDigits3
  rw [List.reverse_append, List.reverse_reverse, List.reverse_replicate,
    Nat.ofDigits_append, ofDigits_replicate_zero]
  simpa [natDigitsLE] using ofDigits_toDigitsLE n n le_rfl

theorem natDigits3_inj {a b : Nat} (h : natDigits3 a = natDigits3 b) : a = b := by
  have h2 := congrArg (fun l => Nat.ofDigits 10 l.reverse) h
  simpa only [ofDigits_reverse_natDigits3] using h2

theorem natDigits3_lt10 (n : Nat) : ∀ d ∈ natDigits3 n, d < 10 := by
  intro d hd
  unfold natDigits3 at hd
  rcases List.mem_append.mp hd with hd | hd
  · have := List.eq_of_mem_replicate hd
    omega
  · exact toDigitsLE_lt10 n n d (List.mem_reverse.mp hd)

theorem digitChar_fin_inj : ∀ (a b : Fin 10), digitChar a.val = digitChar b.val → a = b := by
  decide

theorem digitChar_injOn {a b : Nat} (ha : a < 10) (hb : b < 10)
    (h : digitChar a = digitChar b) : a = b := by
  have := digitChar_fin_inj ⟨a, ha⟩ ⟨b, hb⟩ h
  simpa using congrArg Fin.val this

theorem digitChar_fin_ne_dot : ∀ (d : Fin 10), digitChar d.val ≠ '.' := by
  decide

theorem digitChar_ne_dot {d : Nat} (hd : d < 10) : digitChar d ≠ '.' :=
  digitChar_fin_ne_dot ⟨d, hd⟩

theorem map_digitChar_inj :
    ∀ (l₁ l₂ : List Nat), (∀ d ∈ l₁, d < 10) → (∀ d ∈ l₂, d < 10) →
      l₁.map digitChar = l₂.map digitChar → l₁ = l₂ := by
  intro l₁
  induction l₁ with
  | nil =>
    intro l₂ _ _ h
    cases l₂ with
    | nil => rfl
    | cons b l₂ => simp at h
  | cons a l₁ ih =>
    intro l₂ h₁ h₂ h
    cases l₂ with
    | nil => simp at h
    | cons b l₂ =>
      simp only [List.map_cons, List.cons.injEq] at h
      have hab := digitChar_injOn (h₁ a (List.mem_cons_self a l₁))
        (h₂ b (List.mem_cons_self b l₂)) h.1
      have := ih l₂ (fun d hd => h₁ d (List.mem_cons_of_mem a hd))
        (fun d hd => h₂ d (List.mem_cons_of_mem b hd)) h.2
      rw [hab, this]

theorem splitAtDot :
    ∀ (l₁ l₂ t₁ t₂ : List Char), (∀ ch ∈ l₁, ch ≠ '.') → (∀ ch ∈ l₂, ch ≠ '.') →
      l₁ ++ '.' :: t₁ = l₂ ++ '.' :: t₂ → l₁ = l₂ ∧ t₁ = t₂ := by
  intro l₁
  induction l₁ with
  | nil =>
    intro l₂ t₁ t₂ _ h₂ h
    cases l₂ with
    | nil =>
      simp only [List.nil_append, List.cons.injEq] at h
      exact ⟨rfl, h.2⟩
    | cons c l₂ =>
      simp only [List.nil_append, List.cons_append, List.cons.injEq] at h
      exact absurd h.1.symm (h₂ c (List.mem_cons_self c l₂))
  | cons c l₁ ih =>
    intro l₂ t₁ t₂ h₁ h₂ h
    cases l₂ with
    | nil =>
      simp only [List.cons_append, List.nil_append, List.cons.injEq] at h
      exact absurd h.1 (h₁ c (List.mem_cons_self c l₁))
    | cons c₂ l₂ =>
      simp only [List.cons_append, List.cons.injEq] at h
      obtain ⟨he, ht⟩ := ih l₂ t₁ t₂ (fun ch hc => h₁ ch (List.mem_cons_of_mem c hc))
        (fun ch hc => h₂ ch (List.mem_cons_of_mem c₂ hc)) h.2
      exact ⟨by rw [h.1, he], ht⟩

theorem envChars_ne_dot (idx : Nat) : ∀ ch ∈ envChars idx, ch ≠ '.' := by
  intro ch hc
  unfold envChars at hc
  simp only [List.mem_cons] at hc
  rcases hc with rfl | rfl | rfl | rfl | hc
  · decide
  · decide
  · decide
  · decide
  · obtain ⟨d, hd, rfl⟩ := List.mem_map.mp hc
    exact digitChar_ne_dot (natDigits3_lt10 idx d hd)

theorem envChars_inj {i₁ i₂ : Nat} (h : envChars i₁ = envChars i₂) : i₁ = i₂ := by
  unfold envChars at h
  simp only [List.cons.injEq, true_and] at h
  exact natDigits3_inj
    (map_digitChar_inj _ _ (natDigits3_lt10 i₁) (natDigits3_lt10 i₂) h)

theorem keyNameOf_inj {i₁ i₂ : Nat} {t₁ t₂ : List Char}
    (h : keyNameOf i₁ ('.' :: t₁) = keyNameOf i₂ ('.' :: t₂)) :
    i₁ = i₂ ∧ t₁ = t₂ := by
  unfold keyNameOf at h
  have hdata : envChars i₁ ++ '.' :: t₁ = envChars i₂ ++ '.' :: t₂ :=
    congrArg String.data h
  obtain ⟨he, ht⟩ := splitAtDot _ _ _ _ (envChars_ne_dot i₁) (envChars_ne_dot i₂) hdata
  exact ⟨envChars_inj he, ht⟩

theorem mul_add_lt_inj {n t₁ t₂ i₁ i₂ : Nat} (h₁ : i₁ < n) (h₂ : i₂ < n)
    (h : t₁ * n + i₁ = t₂ * n + i₂) : t₁ = t₂ ∧ i₁ = i₂ := by
  have hn : 0 < n := lt_of_le_of_lt (Nat.zero_le _) h₁
  have e₁ : (t₁ * n + i₁) / n = t₁ := by
    rw [Nat.mul_comm, Nat.mul_add_div hn, Nat.div_eq_of_lt h₁, Nat.add_zero]
  have e₂ : (t₂ * n + i₂) / n = t₂ := by
    rw [Nat.mul_comm, Nat.mul_add_div hn, Nat.div_eq_of_lt h₂, Nat.add_zero]
  have ht : t₁ = t₂ := by rw [← e₁, ← e₂, h]
  subst ht
  exact ⟨rfl, Nat.add_left_cancel h⟩

theorem step_async_ok_spec (c : Config) (strat : Strategies) (s : EnvState)
    (actions : List (List Int)) (store : Store) (s' : EnvState) (st' : Store)
    (h : step_async c strat s actions store = .ok (s', st')) :
    s'.waiting = true ∧ s'.episode_steps = s.episode_steps := by
  simp only [step_async] at h
  split at h
  · simp at h
  · split at h
    · simp at h
    · simp only [Except.ok.injEq, Prod.mk.injEq] at h
      obtain ⟨h1, -⟩ := h
      subst h1
      exact ⟨rfl, rfl⟩

theorem step_wait_ok_spec (c : Config) (strat : Strategies) (s : EnvState) (store : Store)
    (out : StepOutput) (s' : EnvState) (st' : Store)
    (hw : s.waiting = true)
    (h : step_wait c strat s store = .ok (out, s', st')) :
    out.dones = List.replicate c.n_total_agents
      (decide (c.steps_per_episode ≤ s.episode_steps + 1)) ∧
    (decide (c.steps_per_episode ≤ s.episode_steps + 1) = false →
      0 < c.n_total_agents →
      s'.waiting = false ∧ s'.episode_steps = s.episode_steps + 1) := by
  simp only [step_wait, hw, if_true] at h
  split at h
  · simp at h
  · split at h
    · simp at h
    · split at h
      · simp at h
      · split at h
        · simp at h
        · split at h
          · rename_i hall
            refine ?_
            split at h
            · simp at h
            · split at h
              · simp only [Except.ok.injEq, Prod.mk.injEq] at h
                obtain ⟨h1, -, -⟩ := h
                subst h1
                refine ⟨rfl, fun hdf hn => ?_⟩
                rw [hdf, all_replicate_false _ hn] at hall
                simp at hall
              · split at h
                · simp at h
                · simp only [Except.ok.injEq, Prod.mk.injEq] at h
                  obtain ⟨h1, -, -⟩ := h
                  subst h1
                  refine ⟨rfl, fun hdf hn => ?_⟩
                  rw [hdf, all_replicate_false _ hn] at hall
                  simp at hall
          · simp only [Except.ok.injEq, Prod.mk.injEq] at h
            obtain ⟨h1, h2, -⟩ := h
            subst h1
            subst h2
            exact ⟨rfl, fun _ _ => ⟨rfl, rfl⟩⟩

theorem runSteps_dones_spec (c : Config) (strat : Strategies)
    (hn : 0 < c.n_total_agents) :
    ∀ (inputs : List StepInput) (s sf : EnvState) (outs : List StepOutput),
      s.waiting = false →
      s.episode_steps + inputs.length ≤ c.steps_per_episode →
      runSteps c strat s inputs = .ok (sf, outs) →
      outs.length = inputs.length ∧
      ∀ j o, outs.get? j = some o →
        o.dones = List.replicate c.n_total_agents
          (decide (c.steps_per_episode ≤ s.episode_steps + j + 1)) := by
  intro inputs
  induction inputs with
  | nil =>
    intro s sf outs hw hb h
    simp only [runSteps, Except.ok.injEq, Prod.mk.injEq] at h
    obtain ⟨-, h2⟩ := h
    subst h2
    exact ⟨rfl, fun j o hj => by simp at hj⟩
  | cons inp rest ih =>
    intro s sf outs hw hb h
    unfold runSteps at h
    split at h
    · simp at h
    · rename_i out s' stx hso
      split at h
      · simp at h
      · rename_i sf' outs' hrest
        simp only [Except.ok.injEq, Prod.mk.injEq] at h
        obtain ⟨-, h2⟩ := h
        subst h2
        unfold stepOnce at hso
        split at hso
        · simp at hso
        · rename_i s₁ st₁ hsa
          obtain ⟨hw₁, he₁⟩ := step_async_ok_spec _ _ _ _ _ _ _ hsa
          obtain ⟨hdones, hnt⟩ := step_wait_ok_spec _ _ _ _ _ _ _ hw₁ hso
          rw [he₁] at hdones hnt
          cases rest with
          | nil =>
            have houts' : outs' = [] := by
              simp only [runSteps, Except.ok.injEq, Prod.mk.injEq] at hrest
              exact hrest.2.symm
            subst houts'
            refine ⟨rfl, fun j o hj => ?_⟩
            cases j with
            | zero =>
              obtain rfl := Option.some.inj hj
              simpa using hdones
            | succ j => simp at hj
          | cons r rest' =>
            have hlt : s.episode_steps + 1 < c.steps_per_episode := by
              simp only [List.length_cons] at hb
              omega
            have hdf : decide (c.steps_per_episode ≤ s.episode_steps + 1) = false := by
              simp only [decide_eq_false_iff_not]
              omega
            obtain ⟨hw', he'⟩ := hnt hdf hn
            have hb' : s'.episode_steps + (r :: rest').length ≤ c.steps_per_episode := by
              rw [he']
              simp only [List.length_cons] at hb ⊢
              omega
            obtain ⟨hlen, hout⟩ := ih s' sf' outs' hw' hb' hrest
            refine ⟨by simp [hlen], fun j o hj => ?_⟩
            cases j with
            | zero =>
              obtain rfl := Option.some.inj hj
              rw [hdones, hdf]
            | succ j =>
              have hj' : outs'.get? j = some o := hj
              have hres := hout j o hj'
              have harr : s.episode_steps + (j + 1) + 1 = s'.episode_steps + j + 1 := by
                omega
              rw [harr]
              exact hres

theorem assignedKeys_disjoint (c : Config) {t t' : Nat} (hne : t ≠ t') :
    ∀ k ∈ assignedKeys c t, k ∉ assignedKeys c t' := by
  intro k hk hk'
  simp only [assignedKeys, List.mem_append, List.mem_map, List.mem_range] at hk hk'
  rcases hk with (⟨i, hi, rfl⟩ | ⟨i, hi, rfl⟩) | ⟨i, hi, rfl⟩ <;>
    rcases hk' with (⟨i', hi', heq⟩ | ⟨i', hi', heq⟩) | ⟨i', hi', heq⟩ <;>
    obtain ⟨hidx, htail⟩ := keyNameOf_inj heq <;>
    first
      | exact absurd htail (by decide)
      | (obtain ⟨ht, -⟩ := mul_add_lt_inj hi' hi hidx; omega)

/-! The claim theorems. -/

/-- Claim C1: the action scatter is claimed to place component `k` of the
action of agent `i * agents_per_cfd + j` at position `j * cfd_action_dim + k`
of simulation `i`'s buffer for every `k < cfd_action_dim`. The code instead
reads row `(i * agents_per_cfd + j) * cfd_action_dim` of the agent-level
array, which is out of range whenever `cfd_action_dim > 1`: with
`n_cfds = 1`, `agents_per_cfd = 2`, `cfd_action_dim = 2` and the shape-correct
action array `[[1, 2], [3, 4]]`, building simulation 0's buffer fails with an
index error (row 2 of a 2-row array), and `step_async` raises instead of
scattering. -/
theorem c1_action_scatter_bug :
    cC1.n_total_agents = cC1.n_cfds * cC1.agents_per_cfd ∧
    setActionRow cC1 [[1, 2], [3, 4]] 0 = none ∧
    step_async cC1 stratFlat sC1 [[1, 2], [3, 4]] [] = .error (.indexError, c1s, []) :=
  ⟨rfl, rfl, rfl⟩

/-- Claim C2: `step_async` while a step is already pending, and `step_wait`
without a pending step, each raise the protocol-violation `ValueError`; the
error carries the coordinator state and the store exactly as they were, so no
action is written and no state or reward is retrieved. -/
theorem c2_two_phase_protocol (c : Config) (strat : Strategies) (s : EnvState)
    (actions : List (List Int)) (store : Store) :
    (s.waiting = true →
      step_async c strat s actions store =
        .error (.protocolViolation "Async step already in progress", s, store)) ∧
    (s.waiting = false →
      step_wait c strat s store =
        .error (.protocolViolation "No async step in progress", s, store)) := by
  constructor
  · intro hw
    unfold step_async
    rw [if_pos hw]
  · intro hw
    unfold step_wait
    rw [if_neg (by simp [hw])]

/-- Witness for C2 at a concrete pending and a concrete idle state. -/
theorem c2_two_phase_protocol_witness :
    step_async cTiny stratFlat { init cTiny with waiting := true } [[0]] [] =
      .error (.protocolViolation "Async step already in progress",
        { init cTiny with waiting := true }, []) ∧
    step_wait cTiny stratFlat (init cTiny) [] =
      .error (.protocolViolation "No async step in progress", init cTiny, []) :=
  ⟨(c2_two_phase_protocol cTiny stratFlat { init cTiny with waiting := true } [[0]] []).1 rfl,
   (c2_two_phase_protocol cTiny stratFlat (init cTiny) [[0]] []).2 rfl⟩

/-- Claim C5: the claim says `reset` clears the pending-step flag so that a
following `step_async` succeeds. The source's `reset` never assigns
`self._waiting`, contradicting its own docstring: after a pending
`step_async`, a successful `reset` returns a state whose flag is still set,
and the next `step_async` raises the protocol violation. -/
theorem c5_reset_keeps_pending_flag :
    (∃ obs st', c5res = .ok (obs, c5s, st')) ∧
    c5s.waiting = true ∧
    step_async cTiny stratFlat c5s [[0]] [] =
      .error (.protocolViolation "Async step already in progress", c5s, []) :=
  ⟨⟨[[5]], [], rfl⟩, rfl, rfl⟩

/-- Claim C7: on a successful `_get_state` (resp. `_get_reward`) every
retrieved key has been deleted from the store before the call returns —
each deposited tensor is consumed exactly once — and repeating the retrieval
on the resulting store fails at its first key instead of re-reading a value. -/
theorem c7_consume_once (s : EnvState) (store : Store) :
    (∀ vals store', get_state s store = .ok (vals, store') →
      (∀ k, some k ∈ s.state_key → storeLookup store' k = none) ∧
      (s.state_key ≠ [] → ∃ e, get_state s store' = .error (e, store'))) ∧
    (∀ vals store', get_reward s store = .ok (vals, store') →
      (∀ k, some k ∈ s.reward_key → storeLookup store' k = none) ∧
      (s.reward_key ≠ [] → ∃ e, get_reward s store' = .error (e, store'))) := by
  constructor <;>
  · intro vals store' h
    have hc := getTensors_ok_consumed _ _ _ _ h
    exact ⟨hc.2, fun hne => getTensors_again_fails _ _ hc.2 hne⟩

/-- Witness for C7 on a two-simulation state retrieval and a one-simulation
reward retrieval over a concrete store. -/
theorem c7_consume_once_witness :
    storeLookup [("c", [3])] "a" = none ∧
    storeLookup [("c", [3])] "b" = none ∧
    (∃ e, get_state sC7 [("c", [3])] = .error (e, [("c", [3])])) ∧
    storeLookup [("a", [1]), ("b", [2])] "c" = none := by
  have h1 := (c7_consume_once sC7 storeC7).1 [[1], [2]] [("c", [3])] rfl
  have h2 := (c7_consume_once sC7 storeC7).2 [[3]] [("a", [1]), ("b", [2])] rfl
  exact ⟨h1.1 "a" (by decide), h1.1 "b" (by decide), h1.2 (by decide),
    h2.1 "c" (by decide)⟩

/-- Claim C8: the claim says invalid configurations (in particular
`n_total_agents ≠ n_cfds * agents_per_cfd`) are rejected with a configuration
error at construction time. `__init__` contains no such validation: the
invalid configuration `cBad` constructs a coordinator, survives a full
`reset`, and the mismatch only surfaces later as an index error in the middle
of `step_async`'s scatter loop. -/
theorem c8_no_construction_validation :
    cBad.n_total_agents ≠ cBad.n_cfds * cBad.agents_per_cfd ∧
    (init cBad).waiting = false ∧
    (∃ obs st', c8res = .ok (obs, c8s1, st')) ∧
    (∃ s' st', step_async cBad stratFlat c8s1 [[0], [0], [0]] [] =
      .error (.indexError, s', st')) := by
  refine ⟨by decide, rfl, ⟨[[0], [0], [0]], [], rfl⟩, ⟨_, _, rfl⟩⟩

/-- Claim C9: if retrieving some simulation's state key fails during
`step_wait`, the call raises that error instead of returning tensors, and the
error carries the coordinator state exactly as it was before the call — in
particular the stored simulation-level state buffer `_cfd_states` (holding the
batch retrieved on the previous step) is unchanged. -/
theorem c9_state_read_failure_isolation (c : Config) (strat : Strategies)
    (s : EnvState) (store : Store) (e : Err) (st' : Store)
    (hw : s.waiting = true)
    (hfail : get_state s store = .error (e, st')) :
    step_wait c strat s store = .error (e, s, st') := by
  unfold step_wait
  rw [if_pos hw, hfail]

/-- Witness for C9: a pending step whose single state key is missing. -/
theorem c9_state_read_failure_isolation_witness :
    step_wait cTiny stratFlat sC9 [] = .error (.readFailure "missing", sC9, []) :=
  c9_state_read_failure_isolation cTiny stratFlat sC9 [] (.readFailure "missing") []
    rfl rfl

/-- Claim C3: starting from a fresh reset (episode step counter 0), the
`K`-th completed `step_wait` (output index `j = K - 1`) returns an all-true
dones array exactly when `K = steps_per_episode`, and an all-false dones array
for every `K < steps_per_episode`; there is no per-agent early termination.
The store contents seen at each call are arbitrary inputs of the run. -/
theorem c3_fixed_horizon (c : Config) (strat : Strategies) (s₀ sf : EnvState)
    (inputs : List StepInput) (outs : List StepOutput)
    (hfresh : s₀.episode_steps = 0) (hw : s₀.waiting = false)
    (hn : 0 < c.n_total_agents)
    (hK : inputs.length ≤ c.steps_per_episode)
    (hrun : runSteps c strat s₀ inputs = .ok (sf, outs)) :
    outs.length = inputs.length ∧
    ∀ j o, outs.get? j = some o →
      ((∀ b ∈ o.dones, b = true) ↔ j + 1 = c.steps_per_episode) ∧
      (j + 1 < c.steps_per_episode → ∀ b ∈ o.dones, b = false) := by
  have hb : s₀.episode_steps + inputs.length ≤ c.steps_per_episode := by
    rw [hfresh]
    simpa using hK
  obtain ⟨hlen, hout⟩ := runSteps_dones_spec c strat hn inputs s₀ sf outs hw hb hrun
  refine ⟨hlen, fun j o hj => ?_⟩
  have hd := hout j o hj
  rw [hfresh] at hd
  have hjlt : j < inputs.length := by
    by_contra hge
    have hnone : outs.get? j = none := List.get?_eq_none.mpr (by omega)
    rw [hnone] at hj
    cases hj
  constructor
  · constructor
    · intro hall
      by_contra hne2
      have hdf : decide (c.steps_per_episode ≤ 0 + j + 1) = false := by
        simp only [decide_eq_false_iff_not]
        omega
      rw [hdf] at hd
      have hmem : false ∈ o.dones := by
        rw [hd]
        exact List.mem_replicate.mpr ⟨by omega, rfl⟩
      exact Bool.false_ne_true (hall false hmem)
    · intro heq b hbm
      rw [hd] at hbm
      rw [List.eq_of_mem_replicate hbm]
      simp only [decide_eq_true_eq]
      omega
  · intro hlt2 b hbm
    rw [hd] at hbm
    rw [List.eq_of_mem_replicate hbm]
    simp only [decide_eq_false_iff_not]
    omega

/-- Witness for C3: one step with horizon 1 is terminal (dones all true). -/
theorem c3_fixed_horizon_witness :
    c3outs.length = 1 ∧
    (c3outs.headD ⟨[], [], [], []⟩).dones.all (fun b => b) = true := by
  have h := c3_fixed_horizon cTiny stratFlat sC3 c3fin [inpC3] c3outs rfl rfl
    (by decide) (by decide) rfl
  have hmem := (h.2 0 (c3outs.headD ⟨[], [], [], []⟩) rfl).1.mpr rfl
  exact ⟨h.1, List.all_eq_true.mpr hmem⟩

/-- Claim C4: a terminal `step_wait` below the iteration bound reports the
just-finished episode in `rewards` and in each agent's episode summary
(`r` the accumulated episode reward including this step, `l` the horizon),
stores this step's per-agent observation as `terminal_observation`, and
returns as `observations` the result of the internal `reset` of the next
episode — the terminal observations themselves are not returned. -/
theorem c4_terminal_report (c : Config) (strat : Strategies) (s : EnvState) (store : Store)
    (cfdS : List Tensor) (st₁ : Store) (cfdR : List Tensor) (st₂ : Store)
    (obsStep : List (List Int)) (rews : List Int)
    (obsNew : List (List Int)) (s₅ : EnvState) (st₃ : Store)
    (hw : s.waiting = true)
    (hterm : s.episode_steps + 1 = c.steps_per_episode)
    (hiter : s.iteration < c.total_iterations)
    (hlen : c.n_total_agents ≤ s.episode_rewards.length)
    (hgs : get_state s store = .ok (cfdS, st₁))
    (hgr : getTensors s.reward_key st₁ = .ok (cfdR, st₂))
    (hobs : gatherRows c.n_total_agents (strat.redistribute_state cfdS) = some obsStep)
    (hrews : gatherVals c.n_total_agents (strat.recalculate_reward cfdR) = some rews)
    (hreset : reset c strat
        { s with
          cfd_states := cfdS
          agent_states := strat.redistribute_state cfdS
          cfd_rewards := cfdR
          agent_rewards := strat.recalculate_reward cfdR
          episode_steps := s.episode_steps + 1
          episode_rewards := s.episode_rewards.zipWith (· + ·) rews
          waiting := false } st₂ = .ok (obsNew, s₅, st₃)) :
    step_wait c strat s store =
      .ok ({ observations := obsNew
             rewards := rews
             dones := List.replicate c.n_total_agents true
             infos := (List.range c.n_total_agents).map (fun i =>
               { terminal_observation := obsStep.get? i
                 episode := ((s.episode_rewards.zipWith (· + ·) rews).get? i).map
                   (fun r => ⟨r, c.steps_per_episode⟩) }) },
        s₅, st₃) := by
  obtain ⟨hoLen, -⟩ := optionMapM_spec _ _ _ hobs
  obtain ⟨hrLen, -⟩ := optionMapM_spec _ _ _ hrews
  have hfg : ∀ i ∈ List.range c.n_total_agents,
      ((obsStep.get? i).bind fun o =>
        ((s.episode_rewards.zipWith (· + ·) rews).get? i).map fun r =>
          ({ terminal_observation := some o,
             episode := some ⟨r, s.episode_steps + 1⟩ } : Info)) =
      some { terminal_observation := obsStep.get? i,
             episode := ((s.episode_rewards.zipWith (· + ·) rews).get? i).map
               (fun r => ⟨r, s.episode_steps + 1⟩) } := by
    intro i hi
    have hiN : i < c.n_total_agents := List.mem_range.mp hi
    have hoi : i < obsStep.length := by
      rw [hoLen, List.length_range]
      exact hiN
    obtain ⟨o, ho⟩ : ∃ o, obsStep.get? i = some o :=
      ⟨obsStep.get ⟨i, hoi⟩, List.get?_eq_get hoi⟩
    have hrl : rews.length = c.n_total_agents := by
      rw [hrLen, List.length_range]
    have hzi : i < (s.episode_rewards.zipWith (· + ·) rews).length := by
      rw [List.length_zipWith]
      omega
    obtain ⟨r, hr⟩ : ∃ r, (s.episode_rewards.zipWith (· + ·) rews).get? i = some r :=
      ⟨_, List.get?_eq_get hzi⟩
    rw [ho, hr]
    rfl
  have hinfos := optionMapM_eq_map _ _ _ hfg
  have hdt : decide (c.steps_per_episode ≤ s.episode_steps + 1) = true := by
    simp only [decide_eq_true_eq]
    omega
  conv_rhs => rw [← hterm]
  simp only [step_wait, hw, if_true, hgs, get_reward, hgr, hobs, hrews, hdt,
    all_replicate_true, eq_self_iff_true, if_true, hinfos]
  rw [if_neg (show ¬ (c.total_iterations ≤ s.iteration) by omega)]
  simp only [hreset]

/-- Witness for C4: terminal step of `sC4` over `storeC4`, with the next
episode's observation `[[9]]` returned and the terminal observation `[[5]]`
and episode summary `(r = 7, l = 1)` reported in the infos. -/
theorem c4_terminal_report_witness :
    step_wait cTiny stratFlat sC4 storeC4 =
      .ok ({ observations := [[9]]
             rewards := [7]
             dones := [true]
             infos := [{ terminal_observation := some [5],
                         episode := some ⟨7, 1⟩ }] }, c4s2, []) :=
  c4_terminal_report cTiny stratFlat sC4 storeC4 [[5]]
    [("env_000.reward", [7]), ("env_001.state", [9])] [[7]] [("env_001.state", [9])]
    [[5]] [7] [[9]] c4s2 []
    rfl rfl (by decide) (by decide) rfl rfl rfl rfl rfl

/-- Claim C6: a successful `reset` increments the iteration counter by one
and assigns exactly the keys `env_{old_iteration * n_cfds + i:03d}.state`,
`.action` and `.reward`; the key set of any two distinct iteration values is
disjoint, so no key name is ever reused across iterations within a run. -/
theorem c6_key_disjointness (c : Config) (strat : Strategies) (s : EnvState) (store : Store)
    (obs : List (List Int)) (s' : EnvState) (st' : Store)
    (h : reset c strat s store = .ok (obs, s', st')) :
    s'.iteration = s.iteration + 1 ∧
    s'.state_key = (List.range c.n_cfds).map
      (fun i => some (keyNameOf (s.iteration * c.n_cfds + i) stateSuffix)) ∧
    s'.action_key = (List.range c.n_cfds).map
      (fun i => some (keyNameOf (s.iteration * c.n_cfds + i) actionSuffix)) ∧
    s'.reward_key = (List.range c.n_cfds).map
      (fun i => some (keyNameOf (s.iteration * c.n_cfds + i) rewardSuffix)) ∧
    ∀ t', t' ≠ s.iteration → ∀ k ∈ assignedKeys c s.iteration, k ∉ assignedKeys c t' := by
  simp only [reset] at h
  split at h
  · simp at h
  · split at h
    · simp at h
    · simp only [Except.ok.injEq, Prod.mk.injEq] at h
      obtain ⟨-, h2, -⟩ := h
      subst h2
      exact ⟨rfl, rfl, rfl, rfl,
        fun t' ht' => assignedKeys_disjoint c (Ne.symm ht')⟩

/-- Witness for C6: the first reset of a fresh `cTiny` coordinator reaches
iteration 1, assigns the iteration-0 state key, and that key does not occur
among iteration 1's keys. -/
theorem c6_key_disjointness_witness :
    c6s.iteration = 1 ∧
    c6s.state_key = [some "env_000.state"] ∧
    keyNameOf (0 * cTiny.n_cfds + 0) stateSuffix ∉ assignedKeys cTiny 1 := by
  have h := c6_key_disjointness cTiny stratFlat (init cTiny) [("env_000.state", [5])]
    [[5]] c6s [] rfl
  exact ⟨h.1, h.2.1, h.2.2.2.2 1 (by decide) _ (by decide)⟩

/-- Claim C10: `get_attr` returns one copy of the single shared coordinator
attribute per requested index, and `set_attr` with any non-empty index
sequence assigns that one shared attribute, so a later `get_attr` observes the
new value at every index, listed in the `set_attr` call or not. -/
theorem c10_attr_broadcast {V : Type} (attrs : String → V) (attr_name : String)
    (value : V) (indices : List Nat) (hne : indices ≠ []) (idx2 : List Nat) :
    (get_attr attrs attr_name idx2).length = idx2.length ∧
    (∀ x ∈ get_attr attrs attr_name idx2, x = attrs attr_name) ∧
    (∀ x ∈ get_attr (set_attr attrs attr_name value indices) attr_name idx2,
      x = value) := by
  refine ⟨List.length_map _ _, ?_, ?_⟩
  · intro x hx
    obtain ⟨a, -, hax⟩ := List.mem_map.mp hx
    exact hax.symm
  · intro x hx
    obtain ⟨a, -, hax⟩ := List.mem_map.mp hx
    rw [← hax]
    cases indices with
    | nil => exact absurd rfl hne
    | cons i is =>
      exact foldl_update_apply _ _ is _ (Function.update_same _ _ _)

/-- Witness for C10 over integer attributes: set through indices `[0]`, read
back at indices `[0, 5]`. -/
theorem c10_attr_broadcast_witness :
    (get_attr (fun _ => (0 : Int)) "poll_time" [0, 5]).length = 2 ∧
    ((get_attr (set_attr (fun _ => (0 : Int)) "poll_time" 42 [0]) "poll_time"
      [0, 5]).headD 0 = 42) := by
  have h := c10_attr_broadcast (fun _ => (0 : Int)) "poll_time" 42 [0]
    (by simp) [0, 5]
  exact ⟨h.1, h.2.2 _ (by simp [get_attr])⟩

end SmartFlow
